import Mathlib

/-!
# Verification of the policy-rules pipeline (`src/cmd/policyrules_cmd.go`)

This file gives a shallow embedding of the `RunE` closure of
`NewCommandPolicyRules` in `src/cmd/policyrules_cmd.go`, and settles the
specification claims about it.

Modelling conventions:

* Go strings are Lean `String`s; Go's byte-wise string comparison is modelled
  by lexicographic comparison of the lists of Unicode code points
  (`natListLt`), which agrees with byte-wise comparison of UTF-8 encodings.
* Go slices of strings are Lean `List String`.  The in-place mutation of a
  rule's field slices (`rbac.ReplaceToCore`, `rbac.ReplaceToWildCard`,
  `sort.Strings`) is modelled by explicit state passing: the row-building
  pass returns both the rows and the updated aggregate, because the slice
  backing arrays are shared between the loop's rule copies and the stored
  aggregate.
* `p.Rules` is a Go map from namespace to rules; a Go map has no defined
  iteration order, so it is embedded as an association list
  `List (String × List Rule)` carrying one particular iteration order.
* `sort.Slice` (an unstable sort in general) is modelled by a stable
  insertion sort.  Go's `sort.Slice` delegates to plain insertion sort for
  ranges of fewer than 13 elements (both the pre-1.19 quicksort and the
  1.19+ pdqsort do), so the model is exact on such inputs; theorems that
  depend on the order of tied rows only use such inputs.
* `regexp` is an external library; a small model of the fragment of its
  syntax used by this command (literal characters, `.`, `*` postfix, `^`,
  and a leading `(?mi)`/`(?i)`/`(?m)` flag group, with ASCII case folding)
  is defined below.  Patterns outside the fragment fail to compile in the
  model.
-/

namespace PolicyRules

/-- `v1.Subject` as used by the command: only `Kind` and `Name` are read. -/
structure Subject where
  kind : String
  name : String
deriving DecidableEq

/-- `v1.PolicyRule`: the five string-slice fields used by the command. -/
structure Rule where
  verbs : List String
  apiGroups : List String
  resources : List String
  resourceNames : List String
  nonResourceURLs : List String
deriving DecidableEq

/-- `rbac.SubjectPermissions`: one subject plus its namespace → rules map.
The map is carried as an association list in one particular iteration
order (Go map iteration order is unspecified and randomized). -/
structure SubjectPermissions where
  subject : Subject
  rules : List (String × List Rule)
deriving DecidableEq

/-- One table row (`[]string` of length 8 in the source), with named columns
in source order: kind, name, verbs, namespace, api groups, resources,
resource names, non-resource URLs. -/
structure Row where
  kind : String
  name : String
  verbs : String
  ns : String
  apiGroups : String
  resources : String
  resourceNames : String
  nonResourceURLs : String
deriving DecidableEq

/-! ## String ordering (Go byte-wise comparison) -/

/-- Code points of a string. -/
def charNats (s : String) : List Nat := s.data.map Char.toNat

/-- Lexicographic strict order on code-point lists; agrees with Go's
byte-wise string `<` on UTF-8 encodings. -/
def natListLt : List Nat → List Nat → Bool
  | _, [] => false
  | [], _ :: _ => true
  | a :: as, b :: bs => decide (a < b) || (decide (a = b) && natListLt as bs)

/-- Go's `s1 < s2` on strings. -/
def strLtB (a b : String) : Bool := natListLt (charNats a) (charNats b)

/-! ## Generic insertion sort

Used to model `sort.Strings` (where any correct sort yields the same,
unique sorted list) and `sort.Slice` (exact for fewer than 13 elements,
see the header comment). -/

/-- Insert `r` into `l`, passing elements strictly less than `r`. -/
def insertSorted {α : Type} (lt : α → α → Bool) (r : α) : List α → List α
  | [] => [r]
  | x :: xs => if lt x r then x :: insertSorted lt r xs else r :: x :: xs

/-- Stable insertion sort with respect to the strict order `lt`. -/
def insertionSort {α : Type} (lt : α → α → Bool) : List α → List α
  | [] => []
  | x :: xs => insertSorted lt x (insertionSort lt xs)

/-- `sort.Strings` (ascending byte-wise order). -/
def sortStrings (l : List String) : List String := insertionSort strLtB l

/-! ## Normalization helpers from `pkg/rbac` (not under `src/`) -/

/-- Modelled from the spec: `rbac.ReplaceToCore` is code of this repository
that is not under `src/`.  §4.1 of the spec: synonym folding for API groups
"maps known alias tokens to one canonical token (e.g., the empty/legacy
group alias folds to a canonical core token)".  It rewrites values inside
the slice (the callers in `src/cmd/policyrules_cmd.go` pass a slice, ignore
any result, and still test `len == 0` afterwards, so the collection itself
keeps its length; §4.4 and §8 of the spec likewise treat empty collections
as still empty after normalization). -/
def ReplaceToCore (l : List String) : List String :=
  l.map (fun s => if s = "" then "core" else s)

/-- Modelled from the spec: `rbac.ReplaceToWildCard` is code of this
repository that is not under `src/`.  §4.1 of the spec: wildcard folding
normalizes the inconsistent representations of "matches everything" to the
single explicit wildcard token; as with `ReplaceToCore` it rewrites values
inside the slice, and the render-time `len == 0` checks in
`src/cmd/policyrules_cmd.go` (and §4.4/§8 of the spec) handle the empty
collection afterwards. -/
def ReplaceToWildCard (l : List String) : List String :=
  l.map (fun s => if s = "" then "*" else s)

/-- Normalization applied to `APIGroups` at lines 112 and 118 of the source:
fold the empty alias to `core`, then sort. -/
def normalizeCore (l : List String) : List String := sortStrings (ReplaceToCore l)

/-- Normalization applied to the other four fields at lines 113-116 and
119-122 of the source: fold the empty value to `*`, then sort. -/
def normalizeWild (l : List String) : List String := sortStrings (ReplaceToWildCard l)

/-- Lines 112-122 of the source: normalize and sort all five fields of a
rule.  The writes land in the shared backing arrays, so this is also the
state update of the stored rule. -/
def canonicalizeRule (r : Rule) : Rule where
  verbs := normalizeWild r.verbs
  apiGroups := normalizeCore r.apiGroups
  resources := normalizeWild r.resources
  resourceNames := normalizeWild r.resourceNames
  nonResourceURLs := normalizeWild r.nonResourceURLs

/-! ## Row building (lines 100-161 of the source) -/

/-- Lines 124-157: render one rule as a table row.  `ns` is the namespace
after the `"" ↦ "*"` replacement of lines 106-108. -/
def ruleToRow (kind name ns : String) (rule : Rule) : Row :=
  let r := canonicalizeRule rule
  let apigroups :=
    if r.apiGroups.length = 0 then "-" else String.intercalate "," r.apiGroups
  let resources :=
    if r.resources.length = 0 then "-" else String.intercalate "," r.resources
  let resourceNames :=
    if r.resourceNames.length = 0 then
      if r.apiGroups.length = 0 then "-" else "*"
    else String.intercalate "," r.resourceNames
  let nonResourceURLs :=
    if r.nonResourceURLs.length = 0 then "-"
    else String.intercalate "," r.nonResourceURLs
  { kind := kind
    name := name
    verbs := String.intercalate "," r.verbs
    ns := ns
    apiGroups := apigroups
    resources := resources
    resourceNames := resourceNames
    nonResourceURLs := nonResourceURLs }

/-- The rows contributed by one subject, in the order of the given map
iteration (lines 102-161). -/
def rowsOfPolicy (p : SubjectPermissions) : List Row :=
  p.rules.flatMap (fun e =>
    e.2.map (ruleToRow p.subject.kind p.subject.name (if e.1 = "" then "*" else e.1)))

/-- The state update of one subject after the row-building pass: every
stored rule's field slices have been folded and sorted in place. -/
def mutatePolicy (p : SubjectPermissions) : SubjectPermissions where
  subject := p.subject
  rules := p.rules.map (fun e => (e.1, e.2.map canonicalizeRule))

/-- Lines 100-161: build all rows, and return the aggregate as left behind
by the pass (its stored rules canonicalized in place through the shared
backing arrays). -/
def buildRowsAll (ps : List SubjectPermissions) : List Row × List SubjectPermissions :=
  (ps.flatMap rowsOfPolicy, ps.map mutatePolicy)

/-! ## Subject filter (lines 77-98 of the source) -/

/-- The filter loop, translated statement for statement: `matchFn` is
`re.MatchString`, `inverse` is the `--not` flag. -/
def filterSubjects (matchFn : String → Bool) (inverse : Bool) :
    List SubjectPermissions → List SubjectPermissions
  | [] => []
  | p :: ps =>
    if matchFn p.subject.name then
      if inverse then filterSubjects matchFn inverse ps
      else p :: filterSubjects matchFn inverse ps
    else
      if !inverse then filterSubjects matchFn inverse ps
      else p :: filterSubjects matchFn inverse ps

/-! ## Pattern selection (lines 52-60 of the source) -/

/-- Lines 52-60: the pattern handed to `regexp.Compile`.  A non-empty
`--regex` flag is compiled verbatim; otherwise exactly one positional
argument is wrapped with the `(?mi)` flags, and any other argument count
falls back to the match-all pattern. -/
def compilePattern (regex : String) (args : List String) : String :=
  if regex ≠ "" then regex
  else
    match args with
    | [a] => "(?mi)" ++ a
    | _ => ".*"

/-! ## A model of the Go `regexp` fragment used by the command -/

/-- Elements of a compiled pattern: `^`, a literal character, `.`, and the
starred forms of the latter two. -/
inductive RElem
  | caret
  | lit (c : Char)
  | anyc
  | starLit (c : Char)
  | starAny
deriving DecidableEq

/-- Compiled flags: `i` (case-insensitive) and `m` (multi-line `^`). -/
structure RFlags where
  insensitive : Bool
  multiline : Bool
deriving DecidableEq

/-- ASCII case folding on code points (models the folding Go applies under
the `i` flag, restricted to ASCII). -/
def foldNat (n : Nat) : Nat := if 65 ≤ n ∧ n ≤ 90 then n + 32 else n

/-- Character comparison, case folding when `ins` is set. -/
def charEqI (ins : Bool) (a b : Char) : Bool :=
  if ins then Nat.beq (foldNat a.toNat) (foldNat b.toNat) else a == b

/-- Characters the model accepts as literals (a whitelist well away from
the `regexp` metacharacters). -/
def isPlainChar (c : Char) : Bool :=
  c.isAlphanum || c == ':' || c == '-' || c == '_' || c == '/' || c == ' '

/-- Parse the body of a pattern into elements. -/
def parseElems : List Char → Option (List RElem)
  | [] => some []
  | '^' :: rest => (parseElems rest).map (fun es => RElem.caret :: es)
  | '.' :: '*' :: rest => (parseElems rest).map (fun es => RElem.starAny :: es)
  | '.' :: rest => (parseElems rest).map (fun es => RElem.anyc :: es)
  | c :: '*' :: rest =>
    if isPlainChar c then (parseElems rest).map (fun es => RElem.starLit c :: es)
    else none
  | c :: rest =>
    if isPlainChar c then (parseElems rest).map (fun es => RElem.lit c :: es)
    else none

/-- Parse the letters of a leading `(?...)` flag group, up to `)`. -/
def readFlags : List Char → Option (RFlags × List Char)
  | ')' :: rest => some ({ insensitive := false, multiline := false }, rest)
  | 'i' :: rest =>
    (readFlags rest).map (fun fr => ({ fr.1 with insensitive := true }, fr.2))
  | 'm' :: rest =>
    (readFlags rest).map (fun fr => ({ fr.1 with multiline := true }, fr.2))
  | _ => none

/-- `regexp.Compile`, for the fragment of the syntax the command can
produce; patterns outside the fragment yield `none` (in Go: either a
compile error or a pattern this model does not cover). -/
def compileGo (pattern : String) : Option (RFlags × List RElem) :=
  match pattern.data with
  | '(' :: '?' :: rest =>
    match readFlags rest with
    | none => none
    | some (f, r) => (parseElems r).map (fun es => (f, es))
  | cs => (parseElems cs).map (fun es => ({ insensitive := false, multiline := false }, es))

/-- Match the element list against a prefix of `s`.  `bol` says whether the
current position is the beginning of the text or (under `m`) of a line.
`fuel` only forces structural recursion; `s.length + ps.length + 1` is
always enough, since every step consumes an element or a character. -/
def matchHereF (ins ml : Bool) : Nat → List RElem → Bool → List Char → Bool
  | 0, _, _, _ => false
  | _ + 1, [], _, _ => true
  | fuel + 1, RElem.caret :: ps, bol, s => bol && matchHereF ins ml fuel ps bol s
  | _ + 1, RElem.lit _ :: _, _, [] => false
  | fuel + 1, RElem.lit c :: ps, _, x :: xs =>
    charEqI ins c x && matchHereF ins ml fuel ps (ml && x == '\n') xs
  | _ + 1, RElem.anyc :: _, _, [] => false
  | fuel + 1, RElem.anyc :: ps, _, x :: xs =>
    (x != '\n') && matchHereF ins ml fuel ps (ml && x == '\n') xs
  | fuel + 1, RElem.starLit c :: ps, bol, s =>
    matchHereF ins ml fuel ps bol s ||
      (match s with
       | [] => false
       | x :: xs =>
         charEqI ins c x && matchHereF ins ml fuel (RElem.starLit c :: ps) (ml && x == '\n') xs)
  | fuel + 1, RElem.starAny :: ps, bol, s =>
    matchHereF ins ml fuel ps bol s ||
      (match s with
       | [] => false
       | x :: xs =>
         (x != '\n') && matchHereF ins ml fuel (RElem.starAny :: ps) (ml && x == '\n') xs)

/-- Match the pattern at the current position. -/
def matchHere (ins ml : Bool) (ps : List RElem) (bol : Bool) (s : List Char) : Bool :=
  matchHereF ins ml (s.length + ps.length + 1) ps bol s

/-- Try to match at every position of `s` (Go `MatchString` is
unanchored). -/
def matchFrom (ins ml : Bool) (ps : List RElem) : Bool → List Char → Bool
  | bol, [] => matchHere ins ml ps bol []
  | bol, x :: xs =>
    matchHere ins ml ps bol (x :: xs) || matchFrom ins ml ps (ml && x == '\n') xs

/-- `re.MatchString`. -/
def goMatchString (re : RFlags × List RElem) (s : String) : Bool :=
  matchFrom re.1.insensitive re.1.multiline re.2 true s.data

/-! ## Row sorting and the output switch (lines 163-204 of the source) -/

/-- Lines 165-171: the `less` closure of `sort.Slice` — compare kinds,
and on equal kinds compare names. -/
def rowLtB (a b : Row) : Bool :=
  if a.kind = b.kind then strLtB a.name b.name else strLtB a.kind b.kind

/-- The non-strict order induced by `rowLtB`; sortedness of the output
means `List.Pairwise rowLeB`. -/
def rowLeB (a b : Row) : Bool := !(rowLtB b a)

/-- The `sort.Slice` call of line 165 (see the header comment on
stability and the under-13-elements exactness of this model). -/
def sortRows (rows : List Row) : List Row := insertionSort rowLtB rows

/-- The phases of `RunE`, in source order, for stating *when* an error is
surfaced.  `fetch` stands for lines 66-74 (client creation and
`NewPermissionsFromCluster`), `aggregate` for line 76
(`NewSubjectPermissions`), `filter` for lines 77-98, `buildRows` for
lines 100-161, `render` for the writing branches of the switch. -/
inductive Step
  | compileRE
  | fetch
  | aggregate
  | filter
  | buildRows
  | render
deriving DecidableEq

/-- What the command writes: either the sorted table rows, or (for the
`yaml`/`json` branches) the aggregate handed to the marshaller.  Both
marshalling branches serialize the same value, so it is carried as one
constructor; no bytes exist outside `Except.ok`. -/
inductive GoOutput
  | table (rows : List Row)
  | doc (policies : List SubjectPermissions)
deriving DecidableEq

deriving instance DecidableEq for Except

/-- The `RunE` closure (lines 48-205), for a run in which the cluster fetch
succeeds: `policies` is the aggregate returned by
`rbac.NewSubjectPermissions` at line 76 (the fetch and aggregation
themselves live outside `src/`), carried with one concrete map iteration
order per subject.  The first component records which phases ran, the
second is the result. -/
def runE (regex : String) (args : List String) (inverse : Bool) (output : String)
    (policies : List SubjectPermissions) : List Step × Except String GoOutput :=
  match compileGo (compilePattern regex args) with
  | none => ([Step.compileRE], Except.error "error parsing regexp")
  | some re =>
    let filteredPolicies := filterSubjects (goMatchString re) inverse policies
    let built := buildRowsAll filteredPolicies
    let trace := [Step.compileRE, Step.fetch, Step.aggregate, Step.filter, Step.buildRows]
    if output = "table" then
      (trace ++ [Step.render], Except.ok (GoOutput.table (sortRows built.1)))
    else if output = "yaml" then
      (trace ++ [Step.render], Except.ok (GoOutput.doc built.2))
    else if output = "json" then
      (trace ++ [Step.render], Except.ok (GoOutput.doc built.2))
    else
      (trace, Except.error "Unsupported output format")

/-! ## Concrete sample values used by witnesses and counterexamples -/

/-- A raw rule whose API-groups slice holds the legacy empty alias. -/
def rSample : Rule := ⟨["get"], [""], ["pods"], [], []⟩

/-- A sample aggregated principal with one cluster-wide rule. -/
def pSample : SubjectPermissions := ⟨⟨"User", "alice"⟩, [("", [rSample])]⟩

/-- `pSample` as left behind by the row-building pass: the stored rule has
been folded (`"" ↦ "core"`) and sorted in place. -/
def pSampleCanon : SubjectPermissions :=
  ⟨⟨"User", "alice"⟩, [("", [⟨["get"], ["core"], ["pods"], [], []⟩])]⟩

/-- A principal named in lower case. -/
def pAlice : SubjectPermissions := ⟨⟨"User", "alice"⟩, []⟩

/-- The same principal name up to letter case. -/
def pAliceUpper : SubjectPermissions := ⟨⟨"User", "Alice"⟩, []⟩

/-- A rule with every field slice empty. -/
def rEmpty : Rule := ⟨[], [], [], [], []⟩

/-- Sample rules distinguishing two scopes of one principal. -/
def ruleA : Rule := ⟨["get"], ["apps"], ["deployments"], [], []⟩

/-- See `ruleA`. -/
def ruleB : Rule := ⟨["list"], ["apps"], ["pods"], [], []⟩

/-- One principal whose scope map is iterated in the order `a`, `b`. -/
def pScopesAB : SubjectPermissions :=
  ⟨⟨"User", "bob"⟩, [("a", [ruleA]), ("b", [ruleB])]⟩

/-- The same map content iterated in the order `b`, `a`. -/
def pScopesBA : SubjectPermissions :=
  ⟨⟨"User", "bob"⟩, [("b", [ruleB]), ("a", [ruleA])]⟩

/-- The compiled form of the match-all pattern `.*`. -/
def matchAllRe : RFlags × List RElem :=
  ({ insensitive := false, multiline := false }, [RElem.starAny])

/-! ## Helper lemmas: characters and the string order -/

theorem char_toNat_inj {a b : Char} (h : a.toNat = b.toNat) : a = b := by
  apply Char.eq_of_val_eq
  apply UInt32.eq_of_toBitVec_eq
  unfold Char.toNat UInt32.toNat at h
  exact BitVec.toNat_injective h

theorem charNats_inj {a b : String} (h : charNats a = charNats b) : a = b := by
  apply String.ext
  unfold charNats at h
  exact List.map_injective_iff.mpr (fun _ _ hc => char_toNat_inj hc) h

theorem natListLt_asymm :
    ∀ {a b : List Nat}, natListLt a b = true → natListLt b a = false
  | _, [], h => by simp [natListLt] at h
  | [], _ :: _, _ => by simp [natListLt]
  | a :: as, b :: bs, h => by
    simp only [natListLt, Bool.or_eq_true, Bool.and_eq_true,
      decide_eq_true_eq] at h
    rcases h with h | ⟨rfl, h⟩
    · have h1 : decide (b < a) = false := by simp; omega
      have h2 : decide (b = a) = false := by simp; omega
      simp [natListLt, h1, h2]
    · have h1 : decide (a < a) = false := by simp
      simp [natListLt, h1, natListLt_asymm h]

theorem natListLt_trans :
    ∀ {a b c : List Nat}, natListLt a b = true → natListLt b c = true →
      natListLt a c = true
  | _, _, [], _, h2 => by simp [natListLt] at h2
  | _, [], _ :: _, h1, _ => by simp [natListLt] at h1
  | [], _ :: _, _ :: _, _, _ => by simp [natListLt]
  | a :: as, b :: bs, c :: cs, h1, h2 => by
    simp only [natListLt, Bool.or_eq_true, Bool.and_eq_true,
      decide_eq_true_eq] at h1 h2 ⊢
    rcases h1 with h1 | ⟨rfl, h1⟩ <;> rcases h2 with h2 | ⟨rfl, h2⟩
    · left; omega
    · left; omega
    · left; omega
    · right; exact ⟨rfl, natListLt_trans h1 h2⟩

theorem natListLt_conn :
    ∀ {a b : List Nat}, natListLt a b = false → natListLt b a = false → a = b
  | [], [], _, _ => rfl
  | [], _ :: _, h1, _ => by simp [natListLt] at h1
  | _ :: _, [], _, h2 => by simp [natListLt] at h2
  | a :: as, b :: bs, h1, h2 => by
    rw [← Bool.not_eq_true] at h1 h2
    simp only [natListLt, Bool.or_eq_true, Bool.and_eq_true,
      decide_eq_true_eq] at h1 h2
    push_neg at h1 h2
    have hab : a = b := by omega
    subst hab
    have t1 : natListLt as bs = false := by
      rw [← Bool.not_eq_true]; exact h1.2 rfl
    have t2 : natListLt bs as = false := by
      rw [← Bool.not_eq_true]; exact h2.2 rfl
    exact congrArg (a :: ·) (natListLt_conn t1 t2)

theorem strLtB_asymm {a b : String} (h : strLtB a b = true) : strLtB b a = false :=
  natListLt_asymm h

theorem strLtB_trans {a b c : String} (h1 : strLtB a b = true)
    (h2 : strLtB b c = true) : strLtB a c = true :=
  natListLt_trans h1 h2

theorem strLtB_conn {a b : String} (h1 : strLtB a b = false)
    (h2 : strLtB b a = false) : a = b :=
  charNats_inj (natListLt_conn h1 h2)

/-- The step lemma used for insertion-sort sortedness: if `a < c` and
`¬ a < b` then `b < c` (a total-preorder fact). -/
theorem strLtB_step {a b c : String} (h1 : strLtB a c = true)
    (h2 : strLtB a b = false) : strLtB b c = true := by
  by_cases hba : strLtB b a = true
  · exact strLtB_trans hba h1
  · have : a = b := strLtB_conn h2 (by simpa using hba)
    subst this; exact h1

theorem strLtB_irrefl (a : String) : strLtB a a = false := by
  cases h : strLtB a a
  · rfl
  · have h2 := strLtB_asymm h
    rw [h2] at h
    exact h.symm

/-- If `¬ a < b` and `a ≠ b` then `b < a`. -/
theorem strLtB_of_not_of_ne {a b : String} (h : strLtB a b = false)
    (hne : a ≠ b) : strLtB b a = true := by
  cases hx : strLtB b a
  · exact absurd (strLtB_conn h hx) hne
  · rfl

theorem rowLtB_asymm {a b : Row} (h : rowLtB a b = true) : rowLtB b a = false := by
  obtain ⟨ak, an, a3, a4, a5, a6, a7, a8⟩ := a
  obtain ⟨bk, bn, b3, b4, b5, b6, b7, b8⟩ := b
  simp only [rowLtB] at h ⊢
  by_cases hk : ak = bk
  · subst hk
    rw [if_pos rfl] at h ⊢
    exact strLtB_asymm h
  · rw [if_neg hk] at h
    rw [if_neg (fun hh => hk hh.symm)]
    exact strLtB_asymm h

/-- The step lemma for rows: if `a < c` and `¬ a < b` then `b < c`. -/
theorem rowLtB_step {a b c : Row} (h1 : rowLtB a c = true)
    (h2 : rowLtB a b = false) : rowLtB b c = true := by
  obtain ⟨ak, an, a3, a4, a5, a6, a7, a8⟩ := a
  obtain ⟨bk, bn, b3, b4, b5, b6, b7, b8⟩ := b
  obtain ⟨ck, cn, c3, c4, c5, c6, c7, c8⟩ := c
  simp only [rowLtB] at h1 h2 ⊢
  by_cases hab : ak = bk <;> by_cases hac : ak = ck
  · subst hab; subst hac
    rw [if_pos rfl] at h1 h2 ⊢
    exact strLtB_step h1 h2
  · subst hab
    rw [if_neg hac] at h1
    rw [if_neg hac]
    exact h1
  · subst hac
    rw [if_neg hab] at h2
    have hba : strLtB bk ak = true := strLtB_of_not_of_ne h2 hab
    rw [if_neg (fun hh : bk = ak => hab hh.symm)]
    exact hba
  · rw [if_neg hab] at h2
    rw [if_neg hac] at h1
    have hba : strLtB bk ak = true := strLtB_of_not_of_ne h2 hab
    have hbc : strLtB bk ck = true := strLtB_trans hba h1
    have hne : ¬ bk = ck := by
      intro hh
      rw [← hh] at hbc
      rw [strLtB_irrefl] at hbc
      exact Bool.noConfusion hbc
    rw [if_neg hne]
    exact hbc

/-! ## Insertion sort lemmas -/

theorem insertSorted_perm {α : Type} (lt : α → α → Bool) (r : α) :
    ∀ l : List α, (insertSorted lt r l).Perm (r :: l)
  | [] => List.Perm.refl _
  | x :: xs => by
    simp only [insertSorted]
    cases hxr : lt x r
    · simp only [Bool.false_eq_true, if_false]
      exact List.Perm.refl _
    · simp only [if_true]
      exact (List.Perm.cons x (insertSorted_perm lt r xs)).trans (List.Perm.swap r x xs)

theorem insertionSort_perm {α : Type} (lt : α → α → Bool) :
    ∀ l : List α, (insertionSort lt l).Perm l
  | [] => List.Perm.refl _
  | x :: xs =>
    (insertSorted_perm lt x (insertionSort lt xs)).trans
      (List.Perm.cons x (insertionSort_perm lt xs))

theorem insertSorted_pairwise {α : Type} (lt : α → α → Bool)
    (hasym : ∀ a b, lt a b = true → lt b a = false)
    (hstep : ∀ a b c, lt a c = true → lt a b = false → lt b c = true)
    (r : α) : ∀ l : List α, l.Pairwise (fun a b => lt b a = false) →
      (insertSorted lt r l).Pairwise (fun a b => lt b a = false)
  | [], _ => by simp [insertSorted]
  | x :: xs, hp => by
    rcases List.pairwise_cons.mp hp with ⟨hx, hxs⟩
    simp only [insertSorted]
    cases hxr : lt x r
    · simp only [Bool.false_eq_true, if_false]
      apply List.pairwise_cons.mpr
      refine ⟨?_, hp⟩
      intro y hy
      rcases List.mem_cons.mp hy with rfl | hyxs
      · exact hxr
      · cases hyr : lt y r
        · rfl
        · have hxc := hstep y x r hyr (hx y hyxs)
          rw [hxc] at hxr
          exact hxr
    · simp only [if_true]
      apply List.pairwise_cons.mpr
      constructor
      · intro y hy
        have hmem := (insertSorted_perm lt r xs).mem_iff.mp hy
        rcases List.mem_cons.mp hmem with rfl | hyxs
        · exact hasym _ _ hxr
        · exact hx y hyxs
      · exact insertSorted_pairwise lt hasym hstep r xs hxs

theorem insertionSort_pairwise {α : Type} (lt : α → α → Bool)
    (hasym : ∀ a b, lt a b = true → lt b a = false)
    (hstep : ∀ a b c, lt a c = true → lt a b = false → lt b c = true) :
    ∀ l : List α, (insertionSort lt l).Pairwise (fun a b => lt b a = false)
  | [] => by simp [insertionSort]
  | x :: xs =>
    insertSorted_pairwise lt hasym hstep x _ (insertionSort_pairwise lt hasym hstep xs)

theorem insertionSort_eq_of_pairwise {α : Type} (lt : α → α → Bool) :
    ∀ l : List α, l.Pairwise (fun a b => lt b a = false) → insertionSort lt l = l
  | [], _ => rfl
  | x :: xs, hp => by
    rcases List.pairwise_cons.mp hp with ⟨hx, hxs⟩
    simp only [insertionSort]
    rw [insertionSort_eq_of_pairwise lt xs hxs]
    cases xs with
    | nil => rfl
    | cons y ys =>
      simp only [insertSorted]
      rw [hx y (by simp)]
      simp

/-! ## The string sort: instantiated lemmas -/

theorem sortStrings_perm (l : List String) : (sortStrings l).Perm l :=
  insertionSort_perm strLtB l

theorem sortStrings_pairwise (l : List String) :
    (sortStrings l).Pairwise (fun a b => strLtB b a = false) :=
  insertionSort_pairwise strLtB (fun _ _ => strLtB_asymm)
    (fun _ _ _ => strLtB_step) l

theorem sortStrings_eq_of_pairwise {l : List String}
    (h : l.Pairwise (fun a b => strLtB b a = false)) : sortStrings l = l :=
  insertionSort_eq_of_pairwise strLtB l h

theorem sortStrings_idem (l : List String) :
    sortStrings (sortStrings l) = sortStrings l :=
  sortStrings_eq_of_pairwise (sortStrings_pairwise l)

theorem length_sortStrings (l : List String) :
    (sortStrings l).length = l.length :=
  (sortStrings_perm l).length_eq

/-! ## Normalization lemmas -/

theorem map_id_of_fixed {f : String → String} :
    ∀ {l : List String}, (∀ x ∈ l, f x = x) → l.map f = l
  | [], _ => rfl
  | x :: xs, h => by
    simp only [List.map_cons]
    rw [h x (by simp), map_id_of_fixed (fun y hy => h y (by simp [hy]))]

theorem foldCore_fixed (s : String) :
    (if (if s = "" then "core" else s) = "" then "core"
     else (if s = "" then "core" else s)) = (if s = "" then "core" else s) := by
  by_cases h : s = "" <;> simp [h]

theorem foldWild_fixed (s : String) :
    (if (if s = "" then "*" else s) = "" then "*"
     else (if s = "" then "*" else s)) = (if s = "" then "*" else s) := by
  by_cases h : s = "" <;> simp [h]

theorem ReplaceToCore_of_normalized {l : List String} :
    ReplaceToCore (sortStrings (ReplaceToCore l)) = sortStrings (ReplaceToCore l) := by
  apply map_id_of_fixed
  intro x hx
  have hx' : x ∈ ReplaceToCore l := (sortStrings_perm _).mem_iff.mp hx
  rcases List.mem_map.mp hx' with ⟨y, _, rfl⟩
  exact foldCore_fixed y

theorem ReplaceToWildCard_of_normalized {l : List String} :
    ReplaceToWildCard (sortStrings (ReplaceToWildCard l)) = sortStrings (ReplaceToWildCard l) := by
  apply map_id_of_fixed
  intro x hx
  have hx' : x ∈ ReplaceToWildCard l := (sortStrings_perm _).mem_iff.mp hx
  rcases List.mem_map.mp hx' with ⟨y, _, rfl⟩
  exact foldWild_fixed y

theorem normalizeCore_idem (l : List String) :
    normalizeCore (normalizeCore l) = normalizeCore l := by
  unfold normalizeCore
  rw [ReplaceToCore_of_normalized, sortStrings_idem]

theorem normalizeWild_idem (l : List String) :
    normalizeWild (normalizeWild l) = normalizeWild l := by
  unfold normalizeWild
  rw [ReplaceToWildCard_of_normalized, sortStrings_idem]

theorem canonicalizeRule_idem (r : Rule) :
    canonicalizeRule (canonicalizeRule r) = canonicalizeRule r := by
  unfold canonicalizeRule
  simp [normalizeCore_idem, normalizeWild_idem]

theorem length_normalizeCore (l : List String) :
    (normalizeCore l).length = l.length := by
  unfold normalizeCore
  rw [length_sortStrings]
  simp [ReplaceToCore]

theorem length_normalizeWild (l : List String) :
    (normalizeWild l).length = l.length := by
  unfold normalizeWild
  rw [length_sortStrings]
  simp [ReplaceToWildCard]

/-! ## Row sort: instantiated lemmas -/

theorem sortRows_perm (l : List Row) : (sortRows l).Perm l :=
  insertionSort_perm rowLtB l

theorem sortRows_pairwise (l : List Row) :
    (sortRows l).Pairwise (fun a b => rowLtB b a = false) :=
  insertionSort_pairwise rowLtB (fun _ _ => rowLtB_asymm)
    (fun _ _ _ => rowLtB_step) l

/-! ## Filter lemmas -/

theorem filterSubjects_eq_filter (matchFn : String → Bool) (inverse : Bool) :
    ∀ l : List SubjectPermissions,
      filterSubjects matchFn inverse l =
        l.filter (fun p => matchFn p.subject.name != inverse)
  | [] => rfl
  | p :: ps => by
    have ih := filterSubjects_eq_filter matchFn inverse ps
    cases hm : matchFn p.subject.name <;> cases inverse <;>
      simp_all [filterSubjects, List.filter]

/-! ## Regex model lemmas -/

theorem matchHereF_nil (ins ml : Bool) (bol : Bool) (s : List Char)
    {fuel : Nat} (h : 1 ≤ fuel) : matchHereF ins ml fuel [] bol s = true := by
  obtain ⟨f, rfl⟩ : ∃ f, fuel = f + 1 := ⟨fuel - 1, by omega⟩
  rfl

theorem matchHereF_starAny (ins ml : Bool) (bol : Bool) (s : List Char)
    {fuel : Nat} (h : 2 ≤ fuel) :
    matchHereF ins ml fuel [RElem.starAny] bol s = true := by
  obtain ⟨f, rfl⟩ : ∃ f, fuel = f + 2 := ⟨fuel - 2, by omega⟩
  have h1 : matchHereF ins ml (f + 1) [] bol s = true :=
    matchHereF_nil ins ml bol s (by omega)
  cases s <;> simp [matchHereF, h1]

theorem matchHere_starAny (ins ml : Bool) (bol : Bool) (s : List Char) :
    matchHere ins ml [RElem.starAny] bol s = true := by
  unfold matchHere
  apply matchHereF_starAny
  simp only [List.length_cons, List.length_nil]
  omega

/-- The compiled `.*` pattern matches every string. -/
theorem goMatchString_matchAll (f : RFlags) (s : String) :
    goMatchString (f, [RElem.starAny]) s = true := by
  unfold goMatchString
  cases hs : s.data with
  | nil => simp [matchFrom, matchHere_starAny]
  | cons x xs =>
    simp only [matchFrom]
    rw [matchHere_starAny]
    simp

theorem char_beq_newline (a : Char) : (a == '\n') = decide (a.toNat = 10) := by
  cases h : a == '\n'
  · rw [eq_comm, decide_eq_false_iff_not]
    intro hn
    have ha : a = '\n' := char_toNat_inj (by rw [hn]; rfl)
    rw [ha, beq_self_eq_true] at h
    exact Bool.noConfusion h
  · rw [eq_comm, decide_eq_true_eq]
    have ha : a = '\n' := beq_iff_eq.mp h
    rw [ha]
    rfl

theorem newline_eq_of_foldNat {a b : Char}
    (h : foldNat a.toNat = foldNat b.toNat) : (a == '\n') = (b == '\n') := by
  rw [char_beq_newline, char_beq_newline]
  have h1 : a.toNat = 10 ↔ b.toNat = 10 := by
    unfold foldNat at h
    split at h <;> split at h <;> omega
  simp [h1]

/-- Case folding of the subject string. -/
def foldList (s : List Char) : List Nat := s.map (fun c => foldNat c.toNat)

theorem matchHereF_caseFold (ml : Bool) :
    ∀ (fuel : Nat) (ps : List RElem) (bol : Bool) (s1 s2 : List Char),
      foldList s1 = foldList s2 →
      matchHereF true ml fuel ps bol s1 = matchHereF true ml fuel ps bol s2
  | 0, _, _, _, _, _ => rfl
  | fuel + 1, ps, bol, s1, s2, h => by
    cases ps with
    | nil => rfl
    | cons e pss =>
      cases s1 with
      | nil =>
        cases s2 with
        | nil => rfl
        | cons y ys => exact absurd h (by simp [foldList])
      | cons x xs =>
        cases s2 with
        | nil => exact absurd h (by simp [foldList])
        | cons y ys =>
          simp only [foldList, List.map_cons, List.cons.injEq] at h
          obtain ⟨hh, ht⟩ := h
          have hnl : (x == '\n') = (y == '\n') := newline_eq_of_foldNat hh
          have hnl2 : (x != '\n') = (y != '\n') := congrArg (fun b => !b) hnl
          have ht' : foldList xs = foldList ys := ht
          have hcons : foldList (x :: xs) = foldList (y :: ys) := by
            simp [foldList, hh, ht]
          cases e with
          | caret =>
            simp only [matchHereF]
            rw [matchHereF_caseFold ml fuel pss bol _ _ hcons]
          | lit c =>
            simp only [matchHereF, charEqI, if_true, hh, hnl]
            rw [matchHereF_caseFold ml fuel pss _ _ _ ht']
          | anyc =>
            simp only [matchHereF, hnl, hnl2]
            rw [matchHereF_caseFold ml fuel pss _ _ _ ht']
          | starLit c =>
            simp only [matchHereF, charEqI, if_true, hh, hnl]
            rw [matchHereF_caseFold ml fuel pss bol _ _ hcons,
              matchHereF_caseFold ml fuel (RElem.starLit c :: pss) _ _ _ ht']
          | starAny =>
            simp only [matchHereF, hnl, hnl2]
            rw [matchHereF_caseFold ml fuel pss bol _ _ hcons,
              matchHereF_caseFold ml fuel (RElem.starAny :: pss) _ _ _ ht']

theorem matchHere_caseFold (ml : Bool) (ps : List RElem) (bol : Bool)
    {s1 s2 : List Char} (h : foldList s1 = foldList s2) :
    matchHere true ml ps bol s1 = matchHere true ml ps bol s2 := by
  have hlen : s1.length = s2.length := by
    have h2 := congrArg List.length h
    simpa [foldList] using h2
  unfold matchHere
  rw [hlen]
  exact matchHereF_caseFold ml _ ps bol s1 s2 h

theorem matchFrom_caseFold (ml : Bool) (ps : List RElem) :
    ∀ (bol : Bool) (s1 s2 : List Char), foldList s1 = foldList s2 →
      matchFrom true ml ps bol s1 = matchFrom true ml ps bol s2
  | _, [], [], _ => rfl
  | _, [], _ :: _, h => absurd h (by simp [foldList])
  | _, _ :: _, [], h => absurd h (by simp [foldList])
  | bol, x :: xs, y :: ys, h => by
    have hcons := h
    simp only [foldList, List.map_cons, List.cons.injEq] at h
    obtain ⟨hh, ht⟩ := h
    have hnl : (x == '\n') = (y == '\n') := newline_eq_of_foldNat hh
    simp only [matchFrom]
    rw [matchHere_caseFold ml ps bol hcons, hnl,
      matchFrom_caseFold ml ps (ml && (y == '\n')) xs ys ht]

/-- A case-insensitive compiled pattern cannot distinguish two subject
names that agree up to ASCII case folding. -/
theorem goMatchString_caseFold {re : RFlags × List RElem}
    (hins : re.1.insensitive = true) {n1 n2 : String}
    (h : foldList n1.data = foldList n2.data) :
    goMatchString re n1 = goMatchString re n2 := by
  unfold goMatchString
  rw [hins]
  exact matchFrom_caseFold re.1.multiline re.2 true n1.data n2.data h

/-- Compiling `(?mi)` followed by any pattern body sets both flags and
parses the body. -/
theorem compileGo_mi (a : String) :
    compileGo ("(?mi)" ++ a) =
      (parseElems a.data).map
        (fun es => ({ insensitive := true, multiline := true }, es)) := by
  have hd : ("(?mi)" ++ a).data = '(' :: '?' :: 'm' :: 'i' :: ')' :: a.data := by
    rw [String.data_append]
    rfl
  unfold compileGo
  rw [hd]
  simp [readFlags]

/-! ## Claim theorems -/

/-- C1: the subject filter keeps an aggregated principal if and only if the
compiled pattern's match result on its name differs from `invertMatch`
(`keep(match, invert) = (match != invert)`, the source's four-way branch),
and the kept principals form a subsequence of the input in original
order. -/
theorem C1_filter_truth_table (matchFn : String → Bool) (inverse : Bool)
    (policies : List SubjectPermissions) :
    filterSubjects matchFn inverse policies =
      policies.filter (fun p => matchFn p.subject.name != inverse)
    ∧ (filterSubjects matchFn inverse policies).Sublist policies := by
  refine ⟨filterSubjects_eq_filter matchFn inverse policies, ?_⟩
  rw [filterSubjects_eq_filter]
  exact List.filter_sublist policies

/-- C9: canonicalization is idempotent: applying a field's normalization
(synonym folding to `core` for API groups, wildcard folding for the other
four fields, each followed by the in-place sort) twice yields the same
result as applying it once, for field sets and for whole rules. -/
theorem C9_canonicalization_idempotent (S : List String) (r : Rule) :
    normalizeCore (normalizeCore S) = normalizeCore S
    ∧ normalizeWild (normalizeWild S) = normalizeWild S
    ∧ canonicalizeRule (canonicalizeRule r) = canonicalizeRule r :=
  ⟨normalizeCore_idem S, normalizeWild_idem S, canonicalizeRule_idem r⟩

/-- C5: a rule with an empty resource-names set renders its resource-names
column as the wildcard token when the API-groups set is non-empty and as
the dash token when the API-groups set is also empty, and these renderings
are distinct strings. -/
theorem C5_resourceNames_wildcard_vs_dash (kind name ns : String) (r : Rule)
    (h : r.resourceNames = []) :
    ((r.apiGroups ≠ [] → (ruleToRow kind name ns r).resourceNames = "*")
      ∧ (r.apiGroups = [] → (ruleToRow kind name ns r).resourceNames = "-"))
    ∧ ("*" : String) ≠ "-" := by
  have hrn : (canonicalizeRule r).resourceNames.length = 0 := by
    simp [canonicalizeRule, length_normalizeWild, h]
  have hag : (canonicalizeRule r).apiGroups.length = r.apiGroups.length := by
    simp [canonicalizeRule, length_normalizeCore]
  refine ⟨⟨?_, ?_⟩, by decide⟩
  · intro hne
    have hne' : ¬ r.apiGroups.length = 0 := by
      simpa [List.length_eq_zero] using hne
    simp [ruleToRow, hrn, hag, hne']
  · intro heq
    simp [ruleToRow, hrn, hag, heq]

/-- Witness for C5 at concrete rules: non-empty API groups give `*`,
empty API groups give `-`. -/
theorem C5_resourceNames_wildcard_vs_dash_witness :
    (ruleToRow "User" "u" "*" ruleA).resourceNames = "*"
    ∧ (ruleToRow "User" "u" "*" ⟨["get"], [], ["nodes"], [], []⟩).resourceNames = "-" := by
  constructor
  · exact (C5_resourceNames_wildcard_vs_dash "User" "u" "*" ruleA rfl).1.1 (by decide)
  · exact (C5_resourceNames_wildcard_vs_dash "User" "u" "*"
      ⟨["get"], [], ["nodes"], [], []⟩ rfl).1.2 rfl

/-- C10: with an empty regex flag and an argument count other than one, the
compiled pattern is `.*`; it matches every principal name, so the filter
keeps every aggregated principal when `invertMatch` is false and drops
every principal when it is true. -/
theorem C10_default_pattern_matches_all (args : List String)
    (h : args.length ≠ 1) (policies : List SubjectPermissions) :
    compilePattern "" args = ".*"
    ∧ compileGo ".*" = some matchAllRe
    ∧ (∀ nm : String, goMatchString matchAllRe nm = true)
    ∧ filterSubjects (goMatchString matchAllRe) false policies = policies
    ∧ filterSubjects (goMatchString matchAllRe) true policies = [] := by
  have hp : compilePattern "" args = ".*" := by
    unfold compilePattern
    rw [if_neg (by simp)]
    cases args with
    | nil => rfl
    | cons a rest =>
      cases rest with
      | nil => exact absurd rfl h
      | cons b rest2 => rfl
  have hall : ∀ nm : String, goMatchString matchAllRe nm = true :=
    fun nm => goMatchString_matchAll _ nm
  refine ⟨hp, rfl, hall, ?_, ?_⟩
  · rw [filterSubjects_eq_filter]
    apply List.filter_eq_self.mpr
    intro p _
    simp [hall]
  · rw [filterSubjects_eq_filter]
    apply List.filter_eq_nil_iff.mpr
    intro p _
    simp [hall]

/-- Witness for C10 at zero positional arguments and a one-element
aggregate. -/
theorem C10_default_pattern_matches_all_witness :
    compilePattern "" [] = ".*"
    ∧ compileGo ".*" = some matchAllRe
    ∧ goMatchString matchAllRe "alice" = true
    ∧ filterSubjects (goMatchString matchAllRe) false [pSample] = [pSample]
    ∧ filterSubjects (goMatchString matchAllRe) true [pSample] = [] := by
  have h := C10_default_pattern_matches_all [] (by decide) [pSample]
  exact ⟨h.1, h.2.1, h.2.2.1 "alice", h.2.2.2.1, h.2.2.2.2⟩

/-- C2 counterexample: with the unsupported output mode `xml`, the run does
fail with the unsupported-output error and produces no output value, but
the phase trace shows that aggregation, filtering and row building had
already run — the error is not surfaced before aggregation or filtering
work, contrary to the claim. -/
theorem C2_counterexample_error_after_aggregation :
    runE "" [] false "xml" [pSample] =
      ([Step.compileRE, Step.fetch, Step.aggregate, Step.filter, Step.buildRows],
        Except.error "Unsupported output format")
    ∧ Step.aggregate ∈ (runE "" [] false "xml" [pSample]).1
    ∧ Step.filter ∈ (runE "" [] false "xml" [pSample]).1 := by
  refine ⟨by decide, by decide, by decide⟩

/-- C2 (amended): selecting an unsupported output mode (any value other
than `table`, `yaml`, `json`) is surfaced as an error and no output bytes
are produced for that invocation, but the error is detected only after the
aggregation, filtering and row-building phases have run, not before. -/
theorem C2_amended_unsupported_mode (regex : String) (args : List String)
    (inverse : Bool) (output : String) (policies : List SubjectPermissions)
    (re : RFlags × List RElem)
    (hre : compileGo (compilePattern regex args) = some re)
    (h1 : output ≠ "table") (h2 : output ≠ "yaml") (h3 : output ≠ "json") :
    (runE regex args inverse output policies).2 =
      Except.error "Unsupported output format"
    ∧ (∀ o : GoOutput, (runE regex args inverse output policies).2 ≠ Except.ok o)
    ∧ Step.aggregate ∈ (runE regex args inverse output policies).1
    ∧ Step.filter ∈ (runE regex args inverse output policies).1 := by
  unfold runE
  rw [hre]
  simp only [if_neg h1, if_neg h2, if_neg h3]
  refine ⟨by simp, ?_, by simp, by simp⟩
  intro o h
  exact Except.noConfusion h

/-- Witness for the amended C2 at the concrete mode `xml`. -/
theorem C2_amended_unsupported_mode_witness :
    (runE "" [] false "xml" [pSample]).2 = Except.error "Unsupported output format"
    ∧ Step.aggregate ∈ (runE "" [] false "xml" [pSample]).1 := by
  have h := C2_amended_unsupported_mode "" [] false "xml" [pSample]
    matchAllRe rfl (by decide) (by decide) (by decide)
  exact ⟨h.1, h.2.2.1⟩

/-- C3 counterexample: the pattern `alice` supplied via the regex flag is
compiled verbatim (no `(?mi)` wrapping, lines 52-53): it matches the name
`alice` but not `Alice`, although the two names agree up to letter case,
so the filter keeps one and drops the other — matching is not
case-insensitive for flag-supplied patterns. -/
theorem C3_counterexample_flag_case_sensitive :
    compilePattern "alice" [] = "alice"
    ∧ compileGo "alice" = some ({ insensitive := false, multiline := false },
        [RElem.lit 'a', RElem.lit 'l', RElem.lit 'i', RElem.lit 'c', RElem.lit 'e'])
    ∧ (compileGo "alice").map (fun re => goMatchString re "alice") = some true
    ∧ (compileGo "alice").map (fun re => goMatchString re "Alice") = some false
    ∧ foldList "alice".data = foldList "Alice".data
    ∧ filterSubjects
        (goMatchString ({ insensitive := false, multiline := false },
          [RElem.lit 'a', RElem.lit 'l', RElem.lit 'i', RElem.lit 'c', RElem.lit 'e']))
        false [pAlice, pAliceUpper] = [pAlice] := by
  refine ⟨by decide, by decide, by decide, by decide, by decide, by decide⟩

/-- C3 (amended): matching is case-insensitive only for a pattern supplied
as the positional argument (it is wrapped with `(?mi)`, line 58): under
such a pattern, two names that agree up to ASCII case folding always get
the same match result, hence the same keep/drop decision; a pattern
supplied via the regex flag is compiled verbatim and need not be
case-insensitive (see the counterexample). -/
theorem C3_amended_positional_case_insensitive (a : String)
    (re : RFlags × List RElem)
    (hre : compileGo (compilePattern "" [a]) = some re)
    (n1 n2 : String) (hfold : foldList n1.data = foldList n2.data)
    (inverse : Bool) :
    goMatchString re n1 = goMatchString re n2
    ∧ (goMatchString re n1 != inverse) = (goMatchString re n2 != inverse) := by
  have hp : compilePattern "" [a] = "(?mi)" ++ a := rfl
  rw [hp, compileGo_mi] at hre
  rcases Option.map_eq_some'.mp hre with ⟨es, hes, rfl⟩
  have hm : goMatchString ({ insensitive := true, multiline := true }, es) n1 =
      goMatchString ({ insensitive := true, multiline := true }, es) n2 :=
    goMatchString_caseFold rfl hfold
  exact ⟨hm, by rw [hm]⟩

/-- Witness for the amended C3: the positional pattern `alice` matches
`Alice` and `ALICE` alike. -/
theorem C3_amended_positional_case_insensitive_witness :
    goMatchString ({ insensitive := true, multiline := true },
        [RElem.lit 'a', RElem.lit 'l', RElem.lit 'i', RElem.lit 'c', RElem.lit 'e'])
      "Alice" =
    goMatchString ({ insensitive := true, multiline := true },
        [RElem.lit 'a', RElem.lit 'l', RElem.lit 'i', RElem.lit 'c', RElem.lit 'e'])
      "ALICE" := by
  exact (C3_amended_positional_case_insensitive "alice" _ rfl "Alice" "ALICE"
    (by decide) false).1

/-- C4 counterexample: a rule with no verbs renders its verbs column as the
empty string, not as the dash placeholder claimed for every empty
multi-valued column — line 151 joins the verbs with no empty-case
substitution. -/
theorem C4_counterexample_empty_verbs_not_dash :
    (ruleToRow "User" "alice" "*" rEmpty).verbs = ""
    ∧ (ruleToRow "User" "alice" "*" rEmpty).verbs ≠ "-" := by
  refine ⟨by decide, by decide⟩

/-- C4 (amended): in the tabular output the empty API-groups, resources and
non-resource-URLs columns render as the dash placeholder, but the verbs
column has no dash substitution: it is always the comma-join of the
canonicalized verbs and renders as the empty string when the verbs set is
empty. -/
theorem C4_amended_dash_columns (kind name ns : String) (r : Rule) :
    (r.apiGroups = [] → (ruleToRow kind name ns r).apiGroups = "-")
    ∧ (r.resources = [] → (ruleToRow kind name ns r).resources = "-")
    ∧ (r.nonResourceURLs = [] → (ruleToRow kind name ns r).nonResourceURLs = "-")
    ∧ (ruleToRow kind name ns r).verbs = String.intercalate "," (normalizeWild r.verbs)
    ∧ (r.verbs = [] → (ruleToRow kind name ns r).verbs = "") := by
  refine ⟨?_, ?_, ?_, ?_, ?_⟩
  · intro h
    have hl : (canonicalizeRule r).apiGroups.length = 0 := by
      simp [canonicalizeRule, length_normalizeCore, h]
    simp [ruleToRow, hl]
  · intro h
    have hl : (canonicalizeRule r).resources.length = 0 := by
      simp [canonicalizeRule, length_normalizeWild, h]
    simp [ruleToRow, hl]
  · intro h
    have hl : (canonicalizeRule r).nonResourceURLs.length = 0 := by
      simp [canonicalizeRule, length_normalizeWild, h]
    simp [ruleToRow, hl]
  · simp [ruleToRow, canonicalizeRule]
  · intro h
    simp [ruleToRow, canonicalizeRule, h, normalizeWild, ReplaceToWildCard,
      sortStrings, insertionSort, String.intercalate]

/-- Witness for the amended C4 at the all-empty rule. -/
theorem C4_amended_dash_columns_witness :
    (ruleToRow "User" "alice" "*" rEmpty).apiGroups = "-"
    ∧ (ruleToRow "User" "alice" "*" rEmpty).resources = "-"
    ∧ (ruleToRow "User" "alice" "*" rEmpty).nonResourceURLs = "-"
    ∧ (ruleToRow "User" "alice" "*" rEmpty).verbs = "" := by
  have h := C4_amended_dash_columns "User" "alice" "*" rEmpty
  exact ⟨h.1 rfl, h.2.1 rfl, h.2.2.1 rfl, h.2.2.2.2 rfl⟩

/-- C7 counterexample: rendering mutates the filtered aggregate, and the
yaml/json encodings do not serialize the raw un-canonicalized field sets:
for a stored rule with API groups `[""]`, the row-building pass leaves
`["core"]` behind (the slices are normalized and sorted in place through
the shared backing arrays), and both document branches marshal that mutated
aggregate. -/
theorem C7_counterexample_formatting_mutates :
    (buildRowsAll [pSample]).2 ≠ [pSample]
    ∧ (buildRowsAll [pSample]).2 = [pSampleCanon]
    ∧ (runE "" [] false "yaml" [pSample]).2 = Except.ok (GoOutput.doc [pSampleCanon])
    ∧ (runE "" [] false "json" [pSample]).2 = Except.ok (GoOutput.doc [pSampleCanon])
    ∧ pSampleCanon ≠ pSample := by
  refine ⟨by decide, by decide, by decide, by decide, by decide⟩

/-- C7 (amended): the yaml and json encodings serialize the aggregate
object graph — the same principals, the same scope keys and rule counts,
per-scope rule lists rather than table-row strings — but the row-building
pass has by then canonicalized every stored rule's field sets in place, so
both encodings serialize the canonicalized aggregate, which differs from
the raw one whenever some field set was not already canonical. -/
theorem C7_amended_doc_serializes_mutated_aggregate (regex : String)
    (args : List String) (inverse : Bool) (policies : List SubjectPermissions)
    (re : RFlags × List RElem)
    (hre : compileGo (compilePattern regex args) = some re) :
    (runE regex args inverse "yaml" policies).2 =
      Except.ok (GoOutput.doc
        ((filterSubjects (goMatchString re) inverse policies).map mutatePolicy))
    ∧ (runE regex args inverse "json" policies).2 =
        (runE regex args inverse "yaml" policies).2
    ∧ ∀ p : SubjectPermissions,
        (mutatePolicy p).subject = p.subject
        ∧ (mutatePolicy p).rules.map Prod.fst = p.rules.map Prod.fst
        ∧ (mutatePolicy p).rules.map (fun e => e.2.length) =
            p.rules.map (fun e => e.2.length)
        ∧ (mutatePolicy p).rules =
            p.rules.map (fun e => (e.1, e.2.map canonicalizeRule)) := by
  have hyaml : (runE regex args inverse "yaml" policies).2 =
      Except.ok (GoOutput.doc
        ((filterSubjects (goMatchString re) inverse policies).map mutatePolicy)) := by
    unfold runE
    rw [hre]
    simp [buildRowsAll]
  have hjson : (runE regex args inverse "json" policies).2 =
      Except.ok (GoOutput.doc
        ((filterSubjects (goMatchString re) inverse policies).map mutatePolicy)) := by
    unfold runE
    rw [hre]
    simp [buildRowsAll]
  refine ⟨hyaml, by rw [hjson, hyaml], ?_⟩
  intro p
  refine ⟨rfl, ?_, ?_, rfl⟩
  · simp [mutatePolicy]
  · simp [mutatePolicy]

/-- Witness for the amended C7 at a concrete run. -/
theorem C7_amended_doc_serializes_mutated_aggregate_witness :
    (runE "" [] false "yaml" [pSample]).2 =
      Except.ok (GoOutput.doc
        ((filterSubjects (goMatchString matchAllRe) false [pSample]).map mutatePolicy))
    ∧ (runE "" [] false "json" [pSample]).2 = (runE "" [] false "yaml" [pSample]).2 := by
  have h := C7_amended_doc_serializes_mutated_aggregate "" [] false [pSample]
    matchAllRe rfl
  exact ⟨h.1, h.2.1⟩

/-- C8 counterexample: the pipeline's byte output is not a function of the
input snapshot and configuration alone — the same aggregate, with one
principal's scope map handed over in two different iteration orders (Go
randomizes map iteration), produces two different table outputs, because
rows of one principal in different scopes tie under the (kind, name) sort
and keep their encounter order. -/
theorem C8_counterexample_scope_iteration_order :
    pScopesAB.subject = pScopesBA.subject
    ∧ pScopesAB.rules.Perm pScopesBA.rules
    ∧ (runE "" [] false "table" [pScopesAB]).2 ≠
        (runE "" [] false "table" [pScopesBA]).2 := by
  refine ⟨rfl, ?_, by decide⟩
  exact List.Perm.swap ("b", [ruleB]) ("a", [ruleA]) []

/-- C8 (amended): for a fixed snapshot, configuration and scope-map
iteration orders the pipeline is a pure function, and permuting one
principal's scope iteration order yields the same multiset of table rows,
still sorted by (kind, name); but the relative order of one principal's
rows across different scopes follows the map iteration order, which Go
randomizes, so byte-for-byte equality across invocations fails (see the
counterexample). -/
theorem C8_amended_rows_deterministic_up_to_scope_order
    (p q : SubjectPermissions) (hsub : p.subject = q.subject)
    (hperm : p.rules.Perm q.rules) :
    (rowsOfPolicy p).Perm (rowsOfPolicy q)
    ∧ (sortRows (rowsOfPolicy p)).Perm (sortRows (rowsOfPolicy q))
    ∧ (sortRows (rowsOfPolicy p)).Pairwise (fun a b => rowLtB b a = false) := by
  have h1 : (rowsOfPolicy p).Perm (rowsOfPolicy q) := by
    unfold rowsOfPolicy
    rw [hsub]
    exact List.Perm.flatMap_right _ hperm
  exact ⟨h1, ((sortRows_perm _).trans h1).trans (sortRows_perm _).symm,
    sortRows_pairwise _⟩

/-- Witness for the amended C8 at the two-scope principal. -/
theorem C8_amended_rows_deterministic_up_to_scope_order_witness :
    (rowsOfPolicy pScopesAB).Perm (rowsOfPolicy pScopesBA)
    ∧ (sortRows (rowsOfPolicy pScopesAB)).Perm (sortRows (rowsOfPolicy pScopesBA))
    ∧ (sortRows (rowsOfPolicy pScopesAB)).Pairwise (fun a b => rowLtB b a = false) :=
  C8_amended_rows_deterministic_up_to_scope_order pScopesAB pScopesBA rfl
    (List.Perm.swap ("b", [ruleB]) ("a", [ruleA]) [])

end PolicyRules
